import Mathlib

/-!
Verification of the selector parser and tree matcher of `rup`
(`src/parser/mod.rs` and `src/filter/mod.rs`).

The Rust data model and functions are embedded shallowly:

* `AttributeSign`, `CssSelectorAttribute`, `CssCombinator`, `CssSelector`
  mirror the parser's AST types.
* `DomNode` models the externally built `markup5ever_rcdom` tree
  (`Document`, `Element`, `Text`, `Comment`, `Doctype`,
  `ProcessingInstruction`); attributes are name/value string pairs in
  source order.
* `filter_matching_nodes` / `explore_children_nodes` embed the matcher.
  The Rust code reads children with `RefCell::take`, which empties the
  children list of every node it explores; the state-passing variants
  `filter_matching_nodes_st` / `explore_children_nodes_st` track this
  destructive read, returning the node's post-pass value alongside the
  results.  The pure variants return only the result list.
* `parse`, `tokenize`, `parse_token_step` embed the selector parser's
  two phases (space tokenization outside square brackets, then a
  character scan with a current-accumulator state machine).
-/

/-- Embeds Rust `AttributeSign`: the comparison operator of an attribute
selector (`Empty` = bare presence, `=`, `*=`, `^=`, `$=`). -/
inductive AttributeSign where
  | empty
  | equal
  | contain
  | beginWith
  | endWith
deriving DecidableEq, Repr, Inhabited

/-- Embeds Rust `CssSelectorAttribute`: one predicate of a selector node. -/
inductive CssSelectorAttribute where
  | empty
  | id (value : String)
  | cls (value : String)
  | attr (name : String) (sign : AttributeSign) (value : Option String)
  | pseudoClass (name : String) (argument : Option String)
deriving DecidableEq, Repr, Inhabited

/-- Embeds Rust `CssCombinator`: relation of a node to its predecessor. -/
inductive CssCombinator where
  | descendant
  | directChild
  | adjacentSibling
deriving DecidableEq, Repr, Inhabited

/-- Embeds Rust `CssSelector`: one step of a selector chain.  The Rust
`Default` instance yields `name = None`, no attributes, `Descendant`. -/
structure CssSelector where
  name : Option String := none
  attributes : List CssSelectorAttribute := []
  combinator : CssCombinator := .descendant
deriving DecidableEq, Repr, Inhabited

/-- Embeds the `markup5ever_rcdom` node tree consumed by the matcher.
Attributes are ordered name/value pairs. -/
inductive DomNode where
  | document (children : List DomNode)
  | element (name : String) (attrs : List (String × String)) (children : List DomNode)
  | text (content : String)
  | comment
  | doctype
  | procInstr
deriving Repr

/-- `NodeData::Element { .. }` discriminator used by the sibling counter
in `explore_children_nodes`. -/
def DomNode.isElement : DomNode → Bool
  | .element _ _ _ => true
  | _ => false

/-- Models Rust `str::starts_with` on characters. -/
def str_begins (s pat : String) : Bool :=
  List.isPrefixOf pat.data s.data

/-- Models Rust `str::ends_with` on characters. -/
def str_ends (s pat : String) : Bool :=
  List.isSuffixOf pat.data s.data

/-- Models Rust `str::contains` (substring containment) on characters. -/
def str_contains (s pat : String) : Bool :=
  (List.range (s.data.length + 1)).any (fun i => List.isPrefixOf pat.data (s.data.drop i))

/-- Character scan behind `split_whitespace`: maximal runs of
non-whitespace characters, in order. -/
def split_ws_go : List Char → String → List String
  | [], acc => if acc.isEmpty then [] else [acc]
  | c :: rest, acc =>
    if c.isWhitespace then
      if acc.isEmpty then split_ws_go rest "" else acc :: split_ws_go rest ""
    else split_ws_go rest (acc.push c)

/-- Models Rust `str::split_whitespace`: split on whitespace, dropping
empty substrings. -/
def split_whitespace (s : String) : List String :=
  split_ws_go s.data ""

/-- The flattened attribute-entry list built inside
`is_matching_selector_attributes` (filter/mod.rs lines 96-112): the
value of a `class` attribute is split on whitespace and each token
becomes its own `("class", token)` entry; any other attribute
contributes a single `(name, value)` entry. -/
def attr_entries (attrs : List (String × String)) : List (String × String) :=
  (attrs.map (fun a =>
    if a.1 = "class" then (split_whitespace a.2).map (fun t => (a.1, t))
    else [a])).flatten

/-- The per-predicate entry filter of `is_matching_selector_attributes`
(filter/mod.rs lines 114-135).  A pseudo-class predicate, the `Empty`
sentinel, and malformed `Attribute` shapes fall into the final
`_ => false` arm. -/
def entry_matches (c : CssSelectorAttribute) (v : String × String) : Bool :=
  match c with
  | .id i => v.1 == "id" && v.2 == i
  | .cls class_value => v.1 == "class" && v.2 == class_value
  | .attr a .empty none => v.1 == a
  | .attr a .equal (some val) => v.1 == a && v.2 == val
  | .attr a .contain (some val) => v.1 == a && str_contains v.2 val
  | .attr a .beginWith (some val) => v.1 == a && str_begins v.2 val
  | .attr a .endWith (some val) => v.1 == a && str_ends v.2 val
  | _ => false

/-- Embeds `is_matching_selector_attributes` (filter/mod.rs lines
85-141): a short-circuiting fold over the selector's whole predicate
list; each predicate must be matched by exactly one flattened attribute
entry. -/
def is_matching_selector_attributes (sel : CssSelector) (attrs : List (String × String)) : Bool :=
  sel.attributes.foldl (fun acc c =>
    if acc = false then false
    else ((attr_entries attrs).filter (entry_matches c)).length == 1) true

/-- Embeds `is_matching_selector_pseudo_class` (filter/mod.rs lines
143-155).  The `attrs` argument of the Rust function is unused. -/
def is_matching_selector_pseudo_class (sel : CssSelector) (position : Nat) : Bool :=
  sel.attributes.any (fun c =>
    match c with
    | .pseudoClass a none => if a = "first-child" then position == 0 else false
    | _ => false)

/-- Embeds `is_matching_selector_name` (filter/mod.rs lines 78-83). -/
def is_matching_selector_name (sel : CssSelector) (element_name : String) : Bool :=
  match sel.name with
  | none => true
  | some v => v == element_name

/-- The predicate test of filter/mod.rs lines 40-41: attribute check OR
pseudo-class check. -/
def predicate_test (sel : CssSelector) (attrs : List (String × String)) (position : Nat) : Bool :=
  is_matching_selector_attributes sel attrs || is_matching_selector_pseudo_class sel position

mutual
/-- Embeds `filter_matching_nodes` (filter/mod.rs lines 20-52), the
result list only (the destructive children read is tracked by
`filter_matching_nodes_st`). -/
def filter_matching_nodes : DomNode → List CssSelector → Nat → Nat → List DomNode
  | .document cs, sels, index, _ => explore_children_nodes cs sels index 0
  | .element nm attrs cs, sels, index, position =>
    if index = sels.length then []
    else
      let sel := sels.getD index default
      let is_matching_node := is_matching_selector_name sel nm && predicate_test sel attrs position
      let next_index := if is_matching_node then index + 1 else index
      if next_index == sels.length && is_matching_node then [.element nm attrs cs]
      else explore_children_nodes cs sels next_index 0
  | _, _, _, _ => []

/-- Embeds `explore_children_nodes` (filter/mod.rs lines 54-76): fold
over the children accumulating results and an element-only sibling
counter starting at 0. -/
def explore_children_nodes : List DomNode → List CssSelector → Nat → Nat → List DomNode
  | [], _, _, _ => []
  | n :: rest, sels, index, position =>
    filter_matching_nodes n sels index position ++
      explore_children_nodes rest sels index (if n.isElement then position + 1 else position)
end

/-- Embeds `filter` (filter/mod.rs lines 13-17) from the already built
document tree (the HTML parse of the raw content is the external
`html5ever` collaborator). -/
def filter (t : DomNode) (sels : List CssSelector) : List DomNode :=
  filter_matching_nodes t sels 0 0

mutual
/-- State-passing embedding of `filter_matching_nodes`: alongside the
result list it returns the node's own value after the call.  In the Rust
code `explore_children_nodes` reads the children with
`node.children.take()`, which replaces the `RefCell` content with an
empty vector; a node whose children are explored therefore ends the pass
with no children, while a node returned before exploration (terminal
match, exhausted chain, non-element) is untouched.  The taken children
are mutated recursively and then dropped, so their post-states do not
flow back into the tree, exactly as in the source. -/
def filter_matching_nodes_st : DomNode → List CssSelector → Nat → Nat → List DomNode × DomNode
  | .document cs, sels, index, _ =>
    (explore_children_nodes_st cs sels index 0, .document [])
  | .element nm attrs cs, sels, index, position =>
    if index = sels.length then ([], .element nm attrs cs)
    else
      let sel := sels.getD index default
      let is_matching_node := is_matching_selector_name sel nm && predicate_test sel attrs position
      let next_index := if is_matching_node then index + 1 else index
      if next_index == sels.length && is_matching_node then
        ([.element nm attrs cs], .element nm attrs cs)
      else (explore_children_nodes_st cs sels next_index 0, .element nm attrs [])
  | n, _, _, _ => ([], n)

/-- State-passing embedding of `explore_children_nodes`: the children
have already been taken by the caller; each child's post-state is
dropped (the Rust fold keeps only the accumulated results). -/
def explore_children_nodes_st : List DomNode → List CssSelector → Nat → Nat → List DomNode
  | [], _, _, _ => []
  | n :: rest, sels, index, position =>
    (filter_matching_nodes_st n sels index position).1 ++
      explore_children_nodes_st rest sels index (if n.isElement then position + 1 else position)
end

mutual
/-- Path-instrumented variant of `filter_matching_nodes`: identical
traversal, but each result is paired with the position (list of child
indices from the starting node) at which it was appended.  `p` is the
path of the node currently visited. -/
def filter_matching_paths :
    DomNode → List CssSelector → Nat → Nat → List Nat → List (List Nat × DomNode)
  | .document cs, sels, index, _, p => explore_children_paths cs sels index 0 p 0
  | .element nm attrs cs, sels, index, position, p =>
    if index = sels.length then []
    else
      let sel := sels.getD index default
      let is_matching_node := is_matching_selector_name sel nm && predicate_test sel attrs position
      let next_index := if is_matching_node then index + 1 else index
      if next_index == sels.length && is_matching_node then [(p, .element nm attrs cs)]
      else explore_children_paths cs sels next_index 0 p 0
  | _, _, _, _, _ => []

/-- Path-instrumented variant of `explore_children_nodes`; `childIdx`
is the raw index (elements and non-elements alike) of the next child
under the parent path `p`. -/
def explore_children_paths :
    List DomNode → List CssSelector → Nat → Nat → List Nat → Nat → List (List Nat × DomNode)
  | [], _, _, _, _, _ => []
  | n :: rest, sels, index, position, p, childIdx =>
    filter_matching_paths n sels index position (p ++ [childIdx]) ++
      explore_children_paths rest sels index
        (if n.isElement then position + 1 else position) p (childIdx + 1)
end

/-- The ordered children of a node (empty for leaves). -/
def DomNode.childList : DomNode → List DomNode
  | .document cs => cs
  | .element _ _ cs => cs
  | _ => []

/-- The subtree of `t` at a child-index path, when the path exists. -/
def subtreeAt : DomNode → List Nat → Option DomNode
  | t, [] => some t
  | t, i :: rest =>
    match t.childList.get? i with
    | some c => subtreeAt c rest
    | none => none

/-! ### Parser embedding (`src/parser/mod.rs`) -/

/-- First phase of `parse` (parser/mod.rs lines 61-85): split the raw
expression on spaces, except inside an unmatched `[`…`]` span; a space
pushes the accumulator even when it is empty, while the final
accumulator is pushed only when non-empty. -/
def tokenize_go : List Char → String → Bool → List String
  | [], acc, _ => if acc.isEmpty then [] else [acc]
  | c :: rest, acc, openBracket =>
    if c = ' ' ∧ ¬openBracket then acc :: tokenize_go rest "" openBracket
    else if c = '[' then tokenize_go rest (acc.push c) true
    else if c = ']' then tokenize_go rest (acc.push c) false
    else tokenize_go rest (acc.push c) openBracket

/-- The token list produced by the first phase of `parse`. -/
def tokenize (expression : String) : List String :=
  tokenize_go expression.data "" false

/-- Discriminates the `Attribute { .. }` accumulator kind, used by the
guards of the `#`, `.` and `:` marker arms (parser/mod.rs lines
112-115, 124-127, 145-148; the `[` arm at line 136 has no guard). -/
def is_attr_kind : CssSelectorAttribute → Bool
  | .attr _ _ _ => true
  | _ => false

/-- Per-token parser state: the selector node under construction, the
current predicate accumulator and the previous character.  Every branch
of the Rust loop body ends with `previous_char = c`. -/
structure TokSt where
  node : CssSelector
  cur : CssSelectorAttribute
  prev : Char

/-- Flush a non-`Empty` accumulator onto the node's predicate list
(parser/mod.rs lines 117-119 etc.). -/
def push_cur (st : TokSt) : TokSt :=
  if st.cur = .empty then st
  else { st with node := { st.node with attributes := st.node.attributes ++ [st.cur] } }

/-- One iteration of the character loop of `parse` (parser/mod.rs lines
109-268), transcribing the two `match` statements arm by arm. -/
def parse_token_step (st : TokSt) (c : Char) : TokSt :=
  if c = '#' ∧ ¬is_attr_kind st.cur then
    { push_cur st with cur := .id "", prev := c }
  else if c = '.' ∧ ¬is_attr_kind st.cur then
    { push_cur st with cur := .cls "", prev := c }
  else if c = '[' then
    { push_cur st with cur := .attr "" .empty none, prev := c }
  else if c = ':' ∧ ¬is_attr_kind st.cur then
    { push_cur st with cur := .pseudoClass "" none, prev := c }
  else
    match st.cur with
    | .cls s => { st with cur := .cls (s.push c), prev := c }
    | .id s => { st with cur := .id (s.push c), prev := c }
    | .pseudoClass s a =>
      if c = '(' ∨ c = ')' then { st with prev := c }
      else if st.prev = '(' then { st with cur := .pseudoClass s (some c.toString), prev := c }
      else
        match a with
        | some v => { st with cur := .pseudoClass s (some (v.push c)), prev := c }
        | none => { st with cur := .pseudoClass (s.push c) none, prev := c }
    | .attr l sign r =>
      if c = ']' then { st with prev := c }
      else if c = '=' ∧ st.prev = '^' ∧ sign = .empty then
        { st with cur := .attr l .beginWith none, prev := c }
      else if c = '=' ∧ st.prev = '$' ∧ sign = .empty then
        { st with cur := .attr l .endWith none, prev := c }
      else if c = '=' ∧ st.prev = '*' ∧ sign = .empty then
        { st with cur := .attr l .contain none, prev := c }
      else if c = '=' ∧ sign = .empty then
        { st with cur := .attr l .equal none, prev := c }
      else if (c = '*' ∨ c = '$' ∨ c = '^') ∧ r = none then { st with prev := c }
      else if sign = .empty then { st with cur := .attr (l.push c) sign none, prev := c }
      else if (c = '\'' ∨ c = '"') ∧ sign ≠ .empty then { st with prev := c }
      else if sign ≠ .empty then
        { st with cur := .attr l sign (some ((r.getD "").push c)), prev := c }
      else { st with prev := c }
    | .empty =>
      { st with node := { st.node with name := some ((st.node.name.getD "").push c) }, prev := c }

/-- Parse one token into a selector node (parser/mod.rs lines 103-273):
scan the characters, then flush any pending non-`Empty` accumulator.
The pending combinator `comb` is recorded on the node.  Rust initializes
`previous_char` with `char::default()`, the NUL character. -/
def parse_token (tok : String) (comb : CssCombinator) : CssSelector :=
  let st := tok.data.foldl parse_token_step
    { node := { name := none, attributes := [], combinator := comb },
      cur := .empty, prev := Char.ofNat 0 }
  (push_cur st).node

/-- Second phase of `parse` (parser/mod.rs lines 90-274): a standalone
`>` or `+` token sets the combinator for the next node and emits
nothing; any other token (the empty token included) emits exactly one
node, after which the pending combinator resets to `Descendant`. -/
def parse_go : List String → CssCombinator → List CssSelector
  | [], _ => []
  | t :: rest, comb =>
    if t = ">" then parse_go rest .directChild
    else if t = "+" then parse_go rest .adjacentSibling
    else parse_token t comb :: parse_go rest .descendant

/-- Embeds `parse` (parser/mod.rs lines 55-277). -/
def parse (expression : String) : List CssSelector :=
  parse_go (tokenize expression) .descendant

/-- Two chains of equal length whose nodes agree on name and predicate
list, differing at most in each node's combinator marker. -/
def chainAgreesModCombinator (sels sels' : List CssSelector) : Prop :=
  List.Forall₂ (fun a b => a.name = b.name ∧ a.attributes = b.attributes) sels sels'

/-- Two recorded matches are incomparable: neither one's path is a
prefix of the other's (in particular no result sits in the subtree of
another result). -/
def pathsIncomp (a b : List Nat × DomNode) : Prop :=
  ¬ a.1 <+: b.1 ∧ ¬ b.1 <+: a.1

/-- The pending combinator after the second parser phase has consumed a
token list. -/
def combAfter (ts : List String) (comb : CssCombinator) : CssCombinator :=
  ts.foldl
    (fun _ t =>
      if t = ">" then .directChild else if t = "+" then .adjacentSibling else .descendant)
    comb

/-- Discriminates the plain predicate kinds (`Id`, `Class`,
`Attribute`) named by the spec's plain-attribute satisfaction rule. -/
def is_plain_predicate : CssSelectorAttribute → Bool
  | .id _ => true
  | .cls _ => true
  | .attr _ _ _ => true
  | _ => false

/-- Modelled from the spec's wording of the predicate test (claim C1):
the plain-attribute disjunct quantifies only over the predicates that
are `Id`, `Class` or `Attribute`, so that pseudo-class predicates play
no role in it.  To be compared against `predicate_test`, which embeds
the code. -/
def claimed_predicate_test (sel : CssSelector) (attrs : List (String × String))
    (position : Nat) : Bool :=
  (sel.attributes.filter is_plain_predicate).all
    (fun c => ((attr_entries attrs).filter (entry_matches c)).length == 1)
  || is_matching_selector_pseudo_class sel position

/-- A leaf `span` element with a class attribute and a text child, as
in the spec's nine-siblings scenario. -/
def spanLeaf (k : String) : DomNode :=
  .element "span" [("class", k)] [.text ("TEST " ++ k)]

/-- The nine sibling `span` elements classed `1`..`9`. -/
def nineSpans : List DomNode :=
  [spanLeaf "1", spanLeaf "2", spanLeaf "3", spanLeaf "4", spanLeaf "5",
   spanLeaf "6", spanLeaf "7", spanLeaf "8", spanLeaf "9"]

/-- The tree exactly as claim C9 words it: the body contains the nine
classed `span` elements as a flat list of siblings. -/
def flatTree : DomNode :=
  .document [.element "html" []
    [.element "head" [] [], .element "body" [] nineSpans]]

/-- A tree consistent with the repository's `several_nodes.html` test
expectations: the nine classed sibling `span` leaves sit below six
nested ancestor `span` wrappers, so each leaf closes a chain of seven
`span` nodes. -/
def nestedTree : DomNode :=
  .document [.element "html" []
    [.element "head" [] [], .element "body" []
      [.element "span" [] [.element "span" [] [.element "span" []
        [.element "span" [] [.element "span" [] [.element "span" []
          nineSpans]]]]]]]]

/-- The chain of seven consecutive `span` selector nodes. -/
def chain7 : List CssSelector := List.replicate 7 { name := some "span" }

/-- Joint structural induction principle for `DomNode` and lists of
`DomNode`, proved by strong induction on `sizeOf`. -/
theorem DomNode.mutual_ind (P : DomNode → Prop) (Q : List DomNode → Prop)
    (hdoc : ∀ cs, Q cs → P (.document cs))
    (helem : ∀ nm attrs cs, Q cs → P (.element nm attrs cs))
    (htext : ∀ s, P (.text s))
    (hcomment : P .comment)
    (hdoctype : P .doctype)
    (hproc : P .procInstr)
    (hnil : Q [])
    (hcons : ∀ n l, P n → Q l → Q (n :: l)) :
    (∀ n, P n) ∧ (∀ l, Q l) := by
  have key : ∀ k : Nat, (∀ n : DomNode, sizeOf n ≤ k → P n) ∧
      (∀ l : List DomNode, sizeOf l ≤ k → Q l) := by
    intro k
    induction k with
    | zero =>
      constructor
      · intro n hn; cases n <;> simp_arith at hn
      · intro l hl; cases l <;> simp_arith at hl
    | succ k ih =>
      constructor
      · intro n hn
        cases n with
        | document cs =>
          refine hdoc cs (ih.2 cs ?_)
          have := DomNode.document.sizeOf_spec cs
          omega
        | element nm attrs cs =>
          refine helem nm attrs cs (ih.2 cs ?_)
          have := DomNode.element.sizeOf_spec nm attrs cs
          omega
        | text s => exact htext s
        | comment => exact hcomment
        | doctype => exact hdoctype
        | procInstr => exact hproc
      · intro l hl
        cases l with
        | nil => exact hnil
        | cons n rest =>
          have hs := List.cons.sizeOf_spec n rest
          refine hcons n rest (ih.1 n ?_) (ih.2 rest ?_) <;>
            [skip; skip] <;> omega
  exact ⟨fun n => (key (sizeOf n)).1 n le_rfl, fun l => (key (sizeOf l)).2 l le_rfl⟩

/-- The destructive children read does not influence the computed
result list: the state-passing matcher and the pure matcher return the
same results everywhere. -/
theorem filter_st_fst_eq :
    (∀ n : DomNode, ∀ sels i pos,
      (filter_matching_nodes_st n sels i pos).1 = filter_matching_nodes n sels i pos) ∧
    (∀ l : List DomNode, ∀ sels i pos,
      explore_children_nodes_st l sels i pos = explore_children_nodes l sels i pos) := by
  refine DomNode.mutual_ind _ _ ?_ ?_ ?_ ?_ ?_ ?_ ?_ ?_
  · intro cs ih sels i pos
    simp [filter_matching_nodes, filter_matching_nodes_st, ih]
  · intro nm attrs cs ih sels i pos
    simp only [filter_matching_nodes, filter_matching_nodes_st]
    by_cases h1 : i = sels.length
    · simp [h1]
    · simp only [h1, if_false]
      split <;> split <;> simp [ih]
  · intro s sels i pos; simp [filter_matching_nodes, filter_matching_nodes_st]
  · intro sels i pos; simp [filter_matching_nodes, filter_matching_nodes_st]
  · intro sels i pos; simp [filter_matching_nodes, filter_matching_nodes_st]
  · intro sels i pos; simp [filter_matching_nodes, filter_matching_nodes_st]
  · intro sels i pos; simp [explore_children_nodes, explore_children_nodes_st]
  · intro n l ihn ihl sels i pos
    simp [explore_children_nodes, explore_children_nodes_st, ihn, ihl]

/-- The short-circuiting fold of `is_matching_selector_attributes` is
`List.all`. -/
theorem foldl_guard_eq_all (g : CssSelectorAttribute → Bool)
    (l : List CssSelectorAttribute) (b : Bool) :
    l.foldl (fun acc c => if acc = false then false else g c) b = (b && l.all g) := by
  induction l generalizing b with
  | nil => cases b <;> simp
  | cons c l ih =>
    rw [List.foldl_cons]
    cases b
    · have hstep : (if (false : Bool) = false then false else g c) = false := rfl
      rw [hstep, ih]
      simp
    · have hstep : (if (true : Bool) = false then false else g c) = g c := rfl
      rw [hstep, ih]
      simp

/-- `is_matching_selector_attributes` demands, for every predicate in
the node's list (pseudo-class predicates included), exactly one
matching flattened attribute entry. -/
theorem is_matching_selector_attributes_eq_all (sel : CssSelector)
    (attrs : List (String × String)) :
    is_matching_selector_attributes sel attrs =
      sel.attributes.all (fun c => ((attr_entries attrs).filter (entry_matches c)).length == 1) := by
  unfold is_matching_selector_attributes
  rw [foldl_guard_eq_all]
  simp

/-- A pseudo-class predicate matches no attribute entry. -/
theorem entry_matches_pseudo (a : String) (arg : Option String) (v : String × String) :
    entry_matches (.pseudoClass a arg) v = false := rfl

/-- A selector node whose predicate list contains a pseudo-class
predicate always fails the attribute check. -/
theorem is_matching_selector_attributes_false_of_pseudo (sel : CssSelector)
    (attrs : List (String × String)) (a : String) (arg : Option String)
    (h : CssSelectorAttribute.pseudoClass a arg ∈ sel.attributes) :
    is_matching_selector_attributes sel attrs = false := by
  rw [is_matching_selector_attributes_eq_all]
  rw [List.all_eq_false]
  refine ⟨_, h, ?_⟩
  have hnil : (attr_entries attrs).filter (entry_matches (.pseudoClass a arg)) = [] := by
    apply List.filter_eq_nil_iff.mpr
    intro v _
    simp [entry_matches_pseudo]
  rw [hnil]
  simp

/-- Characterization of `is_matching_selector_pseudo_class`: it holds
exactly when the list contains the literal zero-argument `first-child`
pseudo-class and the sibling position is 0. -/
theorem is_matching_selector_pseudo_class_iff (sel : CssSelector) (pos : Nat) :
    is_matching_selector_pseudo_class sel pos = true ↔
      (CssSelectorAttribute.pseudoClass "first-child" none ∈ sel.attributes ∧ pos = 0) := by
  unfold is_matching_selector_pseudo_class
  rw [List.any_eq_true]
  constructor
  · rintro ⟨c, hc, hf⟩
    match c with
    | .pseudoClass a none =>
      by_cases ha : a = "first-child"
      · subst ha
        simp at hf
        exact ⟨hc, hf⟩
      · simp [ha] at hf
    | .pseudoClass a (some v) => simp at hf
    | .empty => simp at hf
    | .id v => simp at hf
    | .cls v => simp at hf
    | .attr a s v => simp at hf
  · rintro ⟨hmem, hpos⟩
    exact ⟨_, hmem, by simp [hpos]⟩

/-- Indexing into chains related modulo combinators yields nodes with
the same name and predicate list (out-of-range indices both give the
default node). -/
theorem chainAgrees_getD (sels sels' : List CssSelector)
    (h : chainAgreesModCombinator sels sels') (i : Nat) :
    (sels.getD i default).name = (sels'.getD i default).name ∧
      (sels.getD i default).attributes = (sels'.getD i default).attributes := by
  have hlen := List.Forall₂.length_eq h
  by_cases hi : i < sels.length
  · have hi' : i < sels'.length := hlen ▸ hi
    have hr := (List.forall₂_iff_get.mp h).2 i hi hi'
    rw [List.getD_eq_getElem?_getD, List.getD_eq_getElem?_getD,
      List.getElem?_eq_getElem hi, List.getElem?_eq_getElem hi']
    exact hr
  · have hi' : ¬ i < sels'.length := hlen ▸ hi
    rw [List.getD_eq_getElem?_getD, List.getD_eq_getElem?_getD,
      List.getElem?_eq_none (by omega), List.getElem?_eq_none (by omega)]
    exact ⟨rfl, rfl⟩

/-- `is_matching_selector_name` reads only the node's name. -/
theorem is_matching_selector_name_congr (a b : CssSelector) (nm : String)
    (h : a.name = b.name) :
    is_matching_selector_name a nm = is_matching_selector_name b nm := by
  unfold is_matching_selector_name
  rw [h]

/-- `predicate_test` reads only the node's predicate list. -/
theorem predicate_test_congr (a b : CssSelector) (attrs : List (String × String)) (pos : Nat)
    (h : a.attributes = b.attributes) :
    predicate_test a attrs pos = predicate_test b attrs pos := by
  unfold predicate_test is_matching_selector_attributes is_matching_selector_pseudo_class
  rw [h]

/-- The matcher's output never depends on the combinator markers of the
chain: chains related modulo combinators produce identical results from
every traversal state. -/
theorem filter_combinator_independent :
    (∀ n : DomNode, ∀ sels sels' i pos, chainAgreesModCombinator sels sels' →
      filter_matching_nodes n sels i pos = filter_matching_nodes n sels' i pos) ∧
    (∀ l : List DomNode, ∀ sels sels' i pos, chainAgreesModCombinator sels sels' →
      explore_children_nodes l sels i pos = explore_children_nodes l sels' i pos) := by
  refine DomNode.mutual_ind _ _ ?_ ?_ ?_ ?_ ?_ ?_ ?_ ?_
  · intro cs ih sels sels' i pos h
    simp only [filter_matching_nodes]
    exact ih sels sels' i 0 h
  · intro nm attrs cs ih sels sels' i pos h
    have hlen : sels'.length = sels.length := (List.Forall₂.length_eq h).symm
    have hgd := chainAgrees_getD sels sels' h i
    have e1 := is_matching_selector_name_congr _ _ nm hgd.1
    have e2 := predicate_test_congr _ _ attrs pos hgd.2
    simp only [filter_matching_nodes, hlen, e1, e2]
    split
    · rfl
    · split <;> split <;> first | rfl | exact ih sels sels' _ 0 h
  · intro s sels sels' i pos h; rfl
  · intro sels sels' i pos h; rfl
  · intro sels sels' i pos h; rfl
  · intro sels sels' i pos h; rfl
  · intro sels sels' i pos h; rfl
  · intro n l ihn ihl sels sels' i pos h
    simp only [explore_children_nodes]
    rw [ihn sels sels' i pos h, ihl sels sels' i _ h]

/-- Forgetting the recorded paths of the instrumented traversal yields
exactly the matcher's result list. -/
theorem filter_paths_map_snd :
    (∀ n : DomNode, ∀ sels i pos p,
      (filter_matching_paths n sels i pos p).map Prod.snd = filter_matching_nodes n sels i pos) ∧
    (∀ l : List DomNode, ∀ sels i pos p ci,
      (explore_children_paths l sels i pos p ci).map Prod.snd
        = explore_children_nodes l sels i pos) := by
  refine DomNode.mutual_ind _ _ ?_ ?_ ?_ ?_ ?_ ?_ ?_ ?_
  · intro cs ih sels i pos p
    simp only [filter_matching_paths, filter_matching_nodes]
    exact ih sels i 0 p 0
  · intro nm attrs cs ih sels i pos p
    simp only [filter_matching_paths, filter_matching_nodes]
    split
    · rfl
    · split <;> split <;> first | rfl | exact ih sels _ 0 p 0
  · intro s sels i pos p; rfl
  · intro sels i pos p; rfl
  · intro sels i pos p; rfl
  · intro sels i pos p; rfl
  · intro sels i pos p ci; rfl
  · intro n l ihn ihl sels i pos p ci
    simp only [explore_children_paths, explore_children_nodes, List.map_append]
    rw [ihn sels i pos _, ihl sels i _ p _]

/-- Two paths extending the same parent path through distinct child
indices are never prefix-comparable, nor is any extension of one a
prefix of an extension of the other. -/
theorem singleton_ext_incomparable {p q q' : List Nat} {i j : Nat} (hij : i ≠ j)
    (h1 : p ++ [i] <+: q) (h2 : p ++ [j] <+: q') : ¬ q <+: q' := by
  intro hqq
  obtain ⟨t1, ht1⟩ := h1.trans hqq
  obtain ⟨t2, ht2⟩ := h2
  rw [← ht2] at ht1
  apply hij
  rw [List.append_assoc, List.append_assoc] at ht1
  have h3 := List.append_cancel_left ht1
  simpa using congrArg (fun l => l.headD 0) h3

/-- Invariant of the instrumented traversal: every recorded path
extends the path of the visited node, and the recorded paths are
pairwise prefix-incomparable (a terminal match stops the descent, so no
result is ever collected inside another result's subtree). -/
theorem filter_paths_antichain :
    (∀ n : DomNode, ∀ sels i pos p,
      (∀ pr ∈ filter_matching_paths n sels i pos p, p <+: pr.1) ∧
      (filter_matching_paths n sels i pos p).Pairwise pathsIncomp) ∧
    (∀ l : List DomNode, ∀ sels i pos p ci,
      (∀ pr ∈ explore_children_paths l sels i pos p ci, ∃ j, ci ≤ j ∧ p ++ [j] <+: pr.1) ∧
      (explore_children_paths l sels i pos p ci).Pairwise pathsIncomp) := by
  refine DomNode.mutual_ind _ _ ?_ ?_ ?_ ?_ ?_ ?_ ?_ ?_
  · intro cs ih sels i pos p
    simp only [filter_matching_paths]
    obtain ⟨h1, h2⟩ := ih sels i 0 p 0
    refine ⟨?_, h2⟩
    intro pr hpr
    obtain ⟨j, -, hj⟩ := h1 pr hpr
    exact (List.prefix_append p [j]).trans hj
  · intro nm attrs cs ih sels i pos p
    simp only [filter_matching_paths]
    by_cases h1 : i = sels.length
    · rw [if_pos h1]
      exact ⟨by intro pr hpr; simp at hpr, by simp⟩
    · rw [if_neg h1]
      split
      · split
        · refine ⟨?_, by simp⟩
          intro pr hpr
          simp only [List.mem_singleton] at hpr
          subst hpr
          exact List.prefix_refl _
        · obtain ⟨hh1, hh2⟩ := ih sels _ 0 p 0
          refine ⟨?_, hh2⟩
          intro pr hpr
          obtain ⟨j, -, hj⟩ := hh1 pr hpr
          exact (List.prefix_append p [j]).trans hj
      · split
        · refine ⟨?_, by simp⟩
          intro pr hpr
          simp only [List.mem_singleton] at hpr
          subst hpr
          exact List.prefix_refl _
        · obtain ⟨hh1, hh2⟩ := ih sels _ 0 p 0
          refine ⟨?_, hh2⟩
          intro pr hpr
          obtain ⟨j, -, hj⟩ := hh1 pr hpr
          exact (List.prefix_append p [j]).trans hj
  · intro s sels i pos p
    exact ⟨by intro pr hpr; simp [filter_matching_paths] at hpr, by simp [filter_matching_paths]⟩
  · intro sels i pos p
    exact ⟨by intro pr hpr; simp [filter_matching_paths] at hpr, by simp [filter_matching_paths]⟩
  · intro sels i pos p
    exact ⟨by intro pr hpr; simp [filter_matching_paths] at hpr, by simp [filter_matching_paths]⟩
  · intro sels i pos p
    exact ⟨by intro pr hpr; simp [filter_matching_paths] at hpr, by simp [filter_matching_paths]⟩
  · intro sels i pos p ci
    exact ⟨by intro pr hpr; simp [explore_children_paths] at hpr,
      by simp [explore_children_paths]⟩
  · intro n l ihn ihl sels i pos p ci
    simp only [explore_children_paths]
    obtain ⟨hn1, hn2⟩ := ihn sels i pos (p ++ [ci])
    obtain ⟨hl1, hl2⟩ := ihl sels i (if n.isElement then pos + 1 else pos) p (ci + 1)
    constructor
    · intro pr hpr
      rcases List.mem_append.mp hpr with h | h
      · exact ⟨ci, le_rfl, hn1 pr h⟩
      · obtain ⟨j, hle, hj⟩ := hl1 pr h
        exact ⟨j, by omega, hj⟩
    · rw [List.pairwise_append]
      refine ⟨hn2, hl2, ?_⟩
      intro a ha b hb
      have hpa := hn1 a ha
      obtain ⟨j, hle, hjb⟩ := hl1 b hb
      have hij : ci ≠ j := by omega
      exact ⟨singleton_ext_incomparable hij hpa hjb,
        singleton_ext_incomparable (Ne.symm hij) hjb hpa⟩

/-- Every recorded (path, node) pair of the instrumented traversal is
real: the path extends the visited node's path and the subtree of the
visited node at the extension is exactly the recorded node. -/
theorem filter_paths_subtree :
    (∀ n : DomNode, ∀ sels i pos p,
      ∀ pr ∈ filter_matching_paths n sels i pos p,
        ∃ suf, pr.1 = p ++ suf ∧ subtreeAt n suf = some pr.2) ∧
    (∀ l : List DomNode, ∀ sels i pos p ci,
      ∀ pr ∈ explore_children_paths l sels i pos p ci,
        ∃ jrel suf c, pr.1 = p ++ (ci + jrel) :: suf ∧ l.get? jrel = some c ∧
          subtreeAt c suf = some pr.2) := by
  refine DomNode.mutual_ind _ _ ?_ ?_ ?_ ?_ ?_ ?_ ?_ ?_
  · intro cs ih sels i pos p pr hpr
    simp only [filter_matching_paths] at hpr
    obtain ⟨jrel, suf, c, h1, h2, h3⟩ := ih sels i 0 p 0 pr hpr
    refine ⟨jrel :: suf, ?_, ?_⟩
    · simpa using h1
    · simp only [subtreeAt, DomNode.childList, h2, h3]
  · intro nm attrs cs ih sels i pos p pr hpr
    simp only [filter_matching_paths] at hpr
    by_cases h1 : i = sels.length
    · rw [if_pos h1] at hpr
      simp at hpr
    · rw [if_neg h1] at hpr
      have hterm : ∀ hpr' : pr ∈ [(p, DomNode.element nm attrs cs)],
          ∃ suf, pr.1 = p ++ suf ∧ subtreeAt (.element nm attrs cs) suf = some pr.2 := by
        intro hpr'
        simp only [List.mem_singleton] at hpr'
        subst hpr'
        exact ⟨[], by simp, rfl⟩
      have hexp : ∀ k, ∀ hpr' : pr ∈ explore_children_paths cs sels k 0 p 0,
          ∃ suf, pr.1 = p ++ suf ∧ subtreeAt (.element nm attrs cs) suf = some pr.2 := by
        intro k hpr'
        obtain ⟨jrel, suf, c, hh1, hh2, hh3⟩ := ih sels k 0 p 0 pr hpr'
        refine ⟨jrel :: suf, ?_, ?_⟩
        · simpa using hh1
        · simp only [subtreeAt, DomNode.childList, hh2, hh3]
      split at hpr
      · split at hpr
        · exact hterm hpr
        · exact hexp _ hpr
      · split at hpr
        · exact hterm hpr
        · exact hexp _ hpr
  · intro s sels i pos p pr hpr; simp [filter_matching_paths] at hpr
  · intro sels i pos p pr hpr; simp [filter_matching_paths] at hpr
  · intro sels i pos p pr hpr; simp [filter_matching_paths] at hpr
  · intro sels i pos p pr hpr; simp [filter_matching_paths] at hpr
  · intro sels i pos p ci pr hpr; simp [explore_children_paths] at hpr
  · intro n l ihn ihl sels i pos p ci pr hpr
    simp only [explore_children_paths] at hpr
    rcases List.mem_append.mp hpr with h | h
    · obtain ⟨suf, h1, h3⟩ := ihn sels i pos (p ++ [ci]) pr h
      refine ⟨0, suf, n, ?_, rfl, h3⟩
      simpa using h1
    · obtain ⟨jrel, suf, c, h1, h2, h3⟩ :=
        ihl sels i (if n.isElement then pos + 1 else pos) p (ci + 1) pr h
      refine ⟨jrel + 1, suf, c, ?_, ?_, h3⟩
      · have harith : ci + (jrel + 1) = ci + 1 + jrel := by omega
        rw [harith]
        exact h1
      · simpa using h2

/-- The chain emitted by the second parser phase has exactly one node
per token other than the standalone combinator tokens `>` and `+`. -/
theorem parse_go_length (ts : List String) (comb : CssCombinator) :
    (parse_go ts comb).length = (ts.filter (fun t => !(t == ">" || t == "+"))).length := by
  induction ts generalizing comb with
  | nil => rfl
  | cons t rest ih =>
    by_cases h1 : t = ">"
    · simp [parse_go, h1, ih]
    · by_cases h2 : t = "+"
      · simp [parse_go, h1, h2, ih]
      · simp [parse_go, h1, h2, ih]

/-- The second parser phase processes concatenated token lists
sequentially, threading the pending combinator. -/
theorem parse_go_append (ts1 ts2 : List String) (comb : CssCombinator) :
    parse_go (ts1 ++ ts2) comb = parse_go ts1 comb ++ parse_go ts2 (combAfter ts1 comb) := by
  induction ts1 generalizing comb with
  | nil => rfl
  | cons t rest ih =>
    by_cases h1 : t = ">"
    · simp [parse_go, combAfter, h1, ih]
    · by_cases h2 : t = "+"
      · simp [parse_go, combAfter, h1, h2, ih]
      · simp [parse_go, combAfter, h1, h2, ih]

/-- An empty token parses to a node with no name and no predicates,
carrying the pending combinator. -/
theorem parse_token_empty (comb : CssCombinator) :
    parse_token "" comb = { name := none, attributes := [], combinator := comb } := rfl

/-- A node with no name and no predicates passes the name test and the
predicate test against every element. -/
theorem unconstrained_node_matches (comb : CssCombinator) (nm : String)
    (attrs : List (String × String)) (pos : Nat) :
    is_matching_selector_name { name := none, attributes := [], combinator := comb } nm = true ∧
      predicate_test { name := none, attributes := [], combinator := comb } attrs pos = true :=
  ⟨rfl, rfl⟩

/-- On an element carrying the same (non-`class`) attribute name twice
with two distinct values, an `Equals` predicate against the first value
is satisfied: exactly one of the two entries matches the name-and-value
test. -/
theorem equals_dup_attr_distinct_values (a v1 v2 : String)
    (hn : a ≠ "class") (hv : v1 ≠ v2) :
    is_matching_selector_attributes
      { name := none, attributes := [.attr a .equal (some v1)], combinator := .descendant }
      [(a, v1), (a, v2)] = true := by
  rw [is_matching_selector_attributes_eq_all]
  have hent : attr_entries [(a, v1), (a, v2)] = [(a, v1), (a, v2)] := by
    simp [attr_entries, hn]
  simp only [List.all_cons, List.all_nil, Bool.and_true, hent]
  have h1 : entry_matches (.attr a .equal (some v1)) (a, v1) = true := by
    simp [entry_matches]
  have h2 : entry_matches (.attr a .equal (some v1)) (a, v2) = false := by
    simp only [entry_matches, Bool.and_eq_false_iff]
    right
    exact beq_eq_false_iff_ne.mpr (Ne.symm hv)
  simp [List.filter, h1, h2]

/-- On the same element, a bare `Presence` predicate on the duplicated
name fails: both entries match, violating the exactly-one rule. -/
theorem presence_dup_attr (a v w : String) (hn : a ≠ "class") :
    is_matching_selector_attributes
      { name := none, attributes := [.attr a .empty none], combinator := .descendant }
      [(a, v), (a, w)] = false := by
  rw [is_matching_selector_attributes_eq_all]
  have hent : attr_entries [(a, v), (a, w)] = [(a, v), (a, w)] := by
    simp [attr_entries, hn]
  simp only [List.all_cons, List.all_nil, Bool.and_true, hent]
  simp [List.filter, entry_matches]

/-- A `Class` predicate against a single `class` attribute is satisfied
exactly when exactly one whitespace-separated token of the attribute
value equals the sought class. -/
theorem class_predicate_counts_tokens (s c : String) :
    is_matching_selector_attributes
      { name := none, attributes := [.cls c], combinator := .descendant }
      [("class", s)] =
      ((split_whitespace s).countP (fun t => t == c) == 1) := by
  rw [is_matching_selector_attributes_eq_all]
  have hent : attr_entries [("class", s)] = (split_whitespace s).map (fun t => ("class", t)) := by
    simp [attr_entries]
  simp only [List.all_cons, List.all_nil, Bool.and_true, hent]
  have hfil : ((split_whitespace s).map (fun t => ("class", t))).filter (entry_matches (.cls c))
      = ((split_whitespace s).filter (fun t => t == c)).map (fun t => ("class", t)) := by
    rw [List.filter_map]
    congr 1
  rw [hfil]
  simp [List.countP_eq_length_filter]

/-- C1 (counterexample): the claim's reading of the predicate test is
false on the code.  On a node with predicates
`[Class "red", PseudoClass "first-child" none]` and an element whose
class tokens contain exactly one `red`, at sibling position 1, the
claimed formula is true while the code's predicate test is false: the
attribute fold also runs over the pseudo-class predicate, which matches
zero attribute entries. -/
theorem claim_C1_counterexample :
    claimed_predicate_test
        { name := none, attributes := [.cls "red", .pseudoClass "first-child" none],
          combinator := .descendant }
        [("class", "red")] 1 = true ∧
      predicate_test
        { name := none, attributes := [.cls "red", .pseudoClass "first-child" none],
          combinator := .descendant }
        [("class", "red")] 1 = false := by
  constructor <;> decide

/-- C1 (amended): the matcher's predicate test equals (every predicate
in the node's list — of any kind — finds exactly one matching attribute
entry) OR (some pseudo-class predicate is satisfied); pseudo-class
predicates do take part in the first disjunct, where they match no
entry, so any node mixing a plain predicate with a pseudo-class
predicate fails the plain-attribute disjunct outright. -/
theorem claim_C1 :
    (∀ sel : CssSelector, ∀ attrs : List (String × String), ∀ pos : Nat,
      predicate_test sel attrs pos =
        (sel.attributes.all
          (fun c => ((attr_entries attrs).filter (entry_matches c)).length == 1)
          || is_matching_selector_pseudo_class sel pos)) ∧
    (∀ sel : CssSelector, ∀ attrs : List (String × String), ∀ a : String, ∀ arg : Option String,
      CssSelectorAttribute.pseudoClass a arg ∈ sel.attributes →
        is_matching_selector_attributes sel attrs = false) := by
  constructor
  · intro sel attrs pos
    unfold predicate_test
    rw [is_matching_selector_attributes_eq_all]
  · intro sel attrs a arg h
    exact is_matching_selector_attributes_false_of_pseudo sel attrs a arg h

/-- C1 (witness): the amended theorem applied at a concrete node whose
predicate list contains a pseudo-class predicate. -/
theorem claim_C1_witness :
    CssSelectorAttribute.pseudoClass "first-child" none ∈
        ({ name := none, attributes := [.cls "red", .pseudoClass "first-child" none],
           combinator := .descendant } : CssSelector).attributes ∧
      is_matching_selector_attributes
        { name := none, attributes := [.cls "red", .pseudoClass "first-child" none],
          combinator := .descendant }
        [("class", "red")] = false :=
  ⟨by decide,
    claim_C1.2
      { name := none, attributes := [.cls "red", .pseudoClass "first-child" none],
        combinator := .descendant }
      [("class", "red")] "first-child" none (by decide)⟩

/-- C3 (counterexample): an element carrying `data-val` twice with the
distinct values `1` and `2` does satisfy an `Equals` predicate against
the value `1`: exactly one of the two entries passes the full
name-and-value test, so the exactly-one-match rule is met, contrary to
the claim that the predicate must fail against either value. -/
theorem claim_C3_counterexample :
    is_matching_selector_attributes
      { name := none, attributes := [.attr "data-val" .equal (some "1")],
        combinator := .descendant }
      [("data-val", "1"), ("data-val", "2")] = true := by
  decide

/-- C3 (amended): on an element carrying the same (non-`class`)
attribute name twice, an `Equals` predicate against one of two distinct
values is satisfied (exactly one entry matches the full test); the
exactly-one rule instead rejects predicates matched by both entries,
e.g. a bare `Presence` predicate on the duplicated name; and a `Class`
predicate is satisfied exactly when exactly one whitespace-separated
token of the class attribute equals the sought class. -/
theorem claim_C3 :
    (∀ a v1 v2 : String, a ≠ "class" → v1 ≠ v2 →
      is_matching_selector_attributes
        { name := none, attributes := [.attr a .equal (some v1)], combinator := .descendant }
        [(a, v1), (a, v2)] = true) ∧
    (∀ a v w : String, a ≠ "class" →
      is_matching_selector_attributes
        { name := none, attributes := [.attr a .empty none], combinator := .descendant }
        [(a, v), (a, w)] = false) ∧
    (∀ s c : String,
      is_matching_selector_attributes
        { name := none, attributes := [.cls c], combinator := .descendant }
        [("class", s)] =
        ((split_whitespace s).countP (fun t => t == c) == 1)) :=
  ⟨equals_dup_attr_distinct_values, presence_dup_attr, class_predicate_counts_tokens⟩

/-- C3 (witness): the amended theorem applied at the claim's concrete
inputs (`data-val` twice with values `1` and `2`; a class attribute
with a single token). -/
theorem claim_C3_witness :
    (("data-val" : String) ≠ "class" ∧ ("1" : String) ≠ "2" ∧
      is_matching_selector_attributes
        { name := none, attributes := [.attr "data-val" .equal (some "1")],
          combinator := .descendant }
        [("data-val", "1"), ("data-val", "2")] = true) ∧
    (is_matching_selector_attributes
        { name := none, attributes := [.attr "data-val" .empty none],
          combinator := .descendant }
        [("data-val", "1"), ("data-val", "2")] = false) ∧
    (is_matching_selector_attributes
        { name := none, attributes := [.cls "red"], combinator := .descendant }
        [("class", "red red")] =
      ((split_whitespace "red red").countP (fun t => t == "red") == 1)) :=
  ⟨⟨by decide, by decide,
      claim_C3.1 "data-val" "1" "2" (by decide) (by decide)⟩,
    claim_C3.2.1 "data-val" "1" "2" (by decide),
    claim_C3.2.2 "red red" "red"⟩

/-- C4 (confirmed): the pseudo-class test is satisfied exactly when the
node's predicate list contains the literal `PseudoClass "first-child"`
with no argument and the sibling position is 0; any other pseudo-class
name, or a non-empty argument, never satisfies it. -/
theorem claim_C4 (sel : CssSelector) (pos : Nat) :
    is_matching_selector_pseudo_class sel pos = true ↔
      (CssSelectorAttribute.pseudoClass "first-child" none ∈ sel.attributes ∧ pos = 0) :=
  is_matching_selector_pseudo_class_iff sel pos

/-- C6 (counterexample): `parse` applied to the empty string returns
the empty chain, whose length is 0, not 1. -/
theorem claim_C6_counterexample :
    parse "" = [] ∧ (parse "").length ≠ 1 := by
  constructor <;> decide

/-- C6 (amended): `parse ""` is the empty chain; in general the chain's
length equals the number of tokens other than the standalone combinator
tokens `>` and `+`, and is therefore 0 exactly when the expression
tokenizes to nothing but combinator tokens (in particular for the empty
expression). -/
theorem claim_C6 :
    parse "" = [] ∧
      (∀ e : String,
        (parse e).length = ((tokenize e).filter (fun t => !(t == ">" || t == "+"))).length) :=
  ⟨rfl, fun e => parse_go_length (tokenize e) .descendant⟩

/-- C2 (counterexample): the matcher does not leave the tree unchanged.
Filtering a document with one `div` child for `span` ends with the
document's children list emptied (the Rust code reads children with
`RefCell::take`), so the post-pass tree differs from the input tree. -/
theorem claim_C2_counterexample :
    (filter_matching_nodes_st (.document [.element "div" [] []])
        [{ name := some "span" }] 0 0).2
      ≠ .document [.element "div" [] []] := by
  have h : (filter_matching_nodes_st (.document [.element "div" [] []])
      [{ name := some "span" }] 0 0).2 = DomNode.document [] := rfl
  rw [h]
  simp

/-- C2 (amended): the matcher's result list is exactly that of a pure
read-only traversal — the destructive children reads never influence
the returned references — but the pass consumes the tree: a document
node always ends the pass with no children, and an element node either
keeps its exact value (terminal match or exhausted chain) or keeps its
name, attributes and content while its children list is emptied. -/
theorem claim_C2 :
    (∀ n : DomNode, ∀ sels i pos,
      (filter_matching_nodes_st n sels i pos).1 = filter_matching_nodes n sels i pos) ∧
    (∀ cs : List DomNode, ∀ sels i pos,
      (filter_matching_nodes_st (.document cs) sels i pos).2 = .document []) ∧
    (∀ nm attrs cs, ∀ sels i pos,
      (filter_matching_nodes_st (.element nm attrs cs) sels i pos).2 = .element nm attrs cs ∨
      (filter_matching_nodes_st (.element nm attrs cs) sels i pos).2 = .element nm attrs []) := by
  refine ⟨filter_st_fst_eq.1, fun cs sels i pos => rfl, ?_⟩
  intro nm attrs cs sels i pos
  simp only [filter_matching_nodes_st]
  by_cases h1 : i = sels.length
  · rw [if_pos h1]
    exact Or.inl rfl
  · rw [if_neg h1]
    split <;> split <;> first | exact Or.inl rfl | exact Or.inr rfl

/-- C5 (confirmed): an element matching the last unsatisfied selector
node is returned alone, without descending into its subtree; in the
path-instrumented traversal (which projects onto the matcher's result
list and whose recorded paths really address the recorded subtrees) the
result paths are pairwise prefix-incomparable, so the result never
contains both an element and a proper descendant of that element. -/
theorem claim_C5 :
    (∀ nm : String, ∀ attrs : List (String × String), ∀ cs : List DomNode,
      ∀ sels : List CssSelector, ∀ i pos : Nat,
      (is_matching_selector_name (sels.getD i default) nm &&
        predicate_test (sels.getD i default) attrs pos) = true →
      i + 1 = sels.length →
      filter_matching_nodes (.element nm attrs cs) sels i pos = [.element nm attrs cs]) ∧
    (∀ t sels,
      (filter_matching_paths t sels 0 0 []).map Prod.snd = filter_matching_nodes t sels 0 0) ∧
    (∀ t sels, (filter_matching_paths t sels 0 0 []).Pairwise pathsIncomp) ∧
    (∀ t sels, ∀ pr ∈ filter_matching_paths t sels 0 0 [], subtreeAt t pr.1 = some pr.2) := by
  refine ⟨?_, fun t sels => filter_paths_map_snd.1 t sels 0 0 [],
    fun t sels => (filter_paths_antichain.1 t sels 0 0 []).2, ?_⟩
  · intro nm attrs cs sels i pos hm hlen
    have hne : i ≠ sels.length := by omega
    simp only [filter_matching_nodes]
    rw [if_neg hne, ← hlen]
    obtain ⟨ha, hb⟩ := (Bool.and_eq_true _ _).mp hm
    rw [List.getD_eq_getElem?_getD] at ha hb
    simp [ha, hb]
  · intro t sels pr hpr
    obtain ⟨suf, h1, h2⟩ := filter_paths_subtree.1 t sels 0 0 [] pr hpr
    rw [h1]
    simpa using h2

/-- C5 (witness): the theorem applied at a one-node chain matching a
concrete element, and at a concrete recorded match of the instrumented
traversal. -/
theorem claim_C5_witness :
    ((is_matching_selector_name (([{ name := some "a" }] : List CssSelector).getD 0 default) "a" &&
        predicate_test (([{ name := some "a" }] : List CssSelector).getD 0 default) [] 0) = true ∧
      0 + 1 = ([{ name := some "a" }] : List CssSelector).length ∧
      filter_matching_nodes (.element "a" [] []) [{ name := some "a" }] 0 0
        = [.element "a" [] []]) ∧
    (([0], DomNode.element "a" [] []) ∈
        filter_matching_paths (.document [.element "a" [] []]) [{ name := some "a" }] 0 0 [] ∧
      subtreeAt (.document [.element "a" [] []]) [0] = some (.element "a" [] [])) := by
  have hmem : ([0], DomNode.element "a" [] []) ∈
      filter_matching_paths (DomNode.document [.element "a" [] []])
        [{ name := some "a" }] 0 0 [] := by
    rw [show filter_matching_paths (DomNode.document [.element "a" [] []])
        [{ name := some "a" }] 0 0 [] = [([0], DomNode.element "a" [] [])] from rfl]
    exact List.mem_singleton.mpr rfl
  exact ⟨⟨by decide, by decide,
      claim_C5.1 "a" [] [] [{ name := some "a" }] 0 0 (by decide) (by decide)⟩,
    hmem, claim_C5.2.2.2 _ _ _ hmem⟩

/-- C7 (confirmed): the matcher's output is independent of the
combinator markers recorded on the chain's nodes — chains that agree on
names and predicate lists produce the same result from any tree. -/
theorem claim_C7 (t : DomNode) (sels sels' : List CssSelector)
    (h : chainAgreesModCombinator sels sels') :
    filter t sels = filter t sels' :=
  filter_combinator_independent.1 t sels sels' 0 0 h

/-- C7 (witness): the theorem applied to a concrete tree and two
concrete one-node chains differing only in the combinator marker. -/
theorem claim_C7_witness :
    chainAgreesModCombinator [{ name := some "div" }]
        [{ name := some "div", combinator := .directChild }] ∧
      filter (.document [.element "div" [] [.element "div" [] []]])
          [{ name := some "div" }] =
        filter (.document [.element "div" [] [.element "div" [] []]])
          [{ name := some "div", combinator := .directChild }] := by
  have hrel : chainAgreesModCombinator [{ name := some "div" }]
      [{ name := some "div", combinator := .directChild }] :=
    List.Forall₂.cons ⟨rfl, rfl⟩ List.Forall₂.nil
  exact ⟨hrel, claim_C7 _ _ _ hrel⟩

/-- C8 (counterexample): `[` does act as a marker inside an unterminated
attribute selector.  Parsing `[a[b]` flushes the pending
`Attribute("a", Presence)` accumulator and starts a new `Attribute`
accumulator, yielding two attribute predicates — under the claim the
`[` would have been ordinary content of the single attribute selector. -/
theorem claim_C8_counterexample :
    parse "[a[b]" =
      [{ name := none, attributes := [.attr "a" .empty none, .attr "b" .empty none],
         combinator := .descendant }] := by
  decide

/-- C8 (amended): while the current accumulator is an `Attribute`
accumulator, `#`, `.` and `:` are not markers — they neither flush the
accumulator nor start a new one, being consumed as attribute-selector
content (so a `#` inside an href value is not mis-parsed) — but `[` is
always a marker: it flushes any non-`Empty` accumulator onto the
predicate list and starts a fresh `Attribute` accumulator, even inside
an unterminated `[...]`. -/
theorem claim_C8 :
    (∀ st : TokSt, ∀ c : Char, is_attr_kind st.cur = true → (c = '#' ∨ c = '.' ∨ c = ':') →
      (parse_token_step st c).node = st.node ∧
        is_attr_kind (parse_token_step st c).cur = true) ∧
    (∀ st : TokSt, st.cur ≠ .empty →
      (parse_token_step st '[').node.attributes = st.node.attributes ++ [st.cur] ∧
        (parse_token_step st '[').cur = .attr "" .empty none) ∧
    parse "[href=#x]" =
      [{ name := none, attributes := [.attr "href" .equal (some "#x")],
         combinator := .descendant }] := by
  refine ⟨?_, ?_, by decide⟩
  · rintro ⟨node, cur, prev⟩ c hkind hc
    cases cur with
    | attr l sign r =>
      rcases hc with rfl | rfl | rfl <;> cases sign <;> cases r <;> exact ⟨rfl, rfl⟩
    | empty => simp [is_attr_kind] at hkind
    | id v => simp [is_attr_kind] at hkind
    | cls v => simp [is_attr_kind] at hkind
    | pseudoClass a arg => simp [is_attr_kind] at hkind
  · rintro ⟨node, cur, prev⟩ h
    have hstep : parse_token_step ⟨node, cur, prev⟩ '[' =
        { push_cur ⟨node, cur, prev⟩ with cur := .attr "" .empty none, prev := '[' } := rfl
    rw [hstep]
    refine ⟨?_, rfl⟩
    show (push_cur ⟨node, cur, prev⟩).node.attributes = _
    unfold push_cur
    rw [if_neg h]

/-- C9 (counterexample): against the tree as the claim words it — the
nine classed `span` elements as a flat list of siblings in the body —
the seven-`span` chain yields 0 matches, not 9: along each root-to-leaf
path only one `span` occurs, so the chain index never reaches 7. -/
theorem claim_C9_counterexample :
    (filter flatTree chain7).length = 0 ∧ (filter flatTree chain7).length ≠ 9 := by
  constructor <;> decide

set_option maxHeartbeats 4000000 in
/-- C9 (amended): the nine classed sibling `span` leaves must sit under
six nested ancestor `span` wrappers (as the repository's own test
expectations for `several_nodes.html` require); then every leaf closes
a seven-`span` chain and the evaluation yields exactly 9 matches. -/
theorem claim_C9 : (filter nestedTree chain7).length = 9 := by decide

/-- C10 (confirmed): each empty token between space delimiters emits
one extra selector node with no name and no predicates; such a node
passes the name test and the predicate test against every element;
`parse "div  span"` yields three nodes with the middle one
unconstrained, a leading space yields a leading unconstrained node, and
a single trailing space emits no extra node. -/
theorem claim_C10 :
    (∀ comb : CssCombinator,
      parse_token "" comb = { name := none, attributes := [], combinator := comb }) ∧
    (∀ comb : CssCombinator, ∀ nm : String, ∀ attrs : List (String × String), ∀ pos : Nat,
      is_matching_selector_name { name := none, attributes := [], combinator := comb } nm
          = true ∧
        predicate_test { name := none, attributes := [], combinator := comb } attrs pos
          = true) ∧
    (∀ ts1 ts2 : List String, ∀ comb : CssCombinator,
      parse_go (ts1 ++ "" :: ts2) comb =
        parse_go ts1 comb ++
          { name := none, attributes := [], combinator := combAfter ts1 comb } ::
            parse_go ts2 .descendant) ∧
    parse "div  span" = [{ name := some "div" }, {}, { name := some "span" }] ∧
    parse " div" = [{}, { name := some "div" }] ∧
    parse "div " = [{ name := some "div" }] := by
  refine ⟨parse_token_empty, unconstrained_node_matches, ?_, by decide, by decide, by decide⟩
  intro ts1 ts2 comb
  rw [parse_go_append]
  rfl

/-- C8 (witness): the amended theorem applied at a concrete attribute
accumulator state for `#` and at a concrete non-empty accumulator for
`[`. -/
theorem claim_C8_witness :
    (is_attr_kind (CssSelectorAttribute.attr "href" .equal (some "")) = true ∧
      (parse_token_step
          ⟨{ name := none, attributes := [], combinator := .descendant },
            .attr "href" .equal (some ""), '='⟩ '#').node =
        ({ name := none, attributes := [], combinator := .descendant } : CssSelector) ∧
      is_attr_kind
        (parse_token_step
          ⟨{ name := none, attributes := [], combinator := .descendant },
            .attr "href" .equal (some ""), '='⟩ '#').cur = true) ∧
    ((CssSelectorAttribute.attr "a" .empty none) ≠ .empty ∧
      (parse_token_step
          ⟨{ name := none, attributes := [], combinator := .descendant },
            .attr "a" .empty none, 'a'⟩ '[').node.attributes =
        ([] : List CssSelectorAttribute) ++ [CssSelectorAttribute.attr "a" .empty none] ∧
      (parse_token_step
          ⟨{ name := none, attributes := [], combinator := .descendant },
            .attr "a" .empty none, 'a'⟩ '[').cur = .attr "" .empty none) :=
  ⟨⟨by decide,
      claim_C8.1
        ⟨{ name := none, attributes := [], combinator := .descendant },
          .attr "href" .equal (some ""), '='⟩ '#' (by decide) (Or.inl rfl)⟩,
    by decide,
    claim_C8.2.1
      ⟨{ name := none, attributes := [], combinator := .descendant },
        .attr "a" .empty none, 'a'⟩ (by decide)⟩
